import Mathlib

/-!
# Verification of the IEP kernel interpreter (`iepkernel/interpreter.py`)

A shallow embedding of the pure parts of `IepInterpreter` and
`ExecutedSourceCollection`, with theorems settling the frozen claims about
the traceback rewriter, the executed-source registry, the encoding-cookie
mangling, the line buffer, and the exception dispatch of the REPL loops.

Python strings are modelled as `List Char` where character-level
manipulation matters (filename tags, cookie mangling) and as Lean `String`
elsewhere.  Python `int` values are `Int`/`Nat`.
-/

namespace Iep

/-! ## Python string primitives used by the interpreter -/

/-- Python `s.find(c)` for a one-character needle: the index of the first
occurrence, `-1` when absent. -/
def pyFind (c : Char) : List Char → Int
  | [] => -1
  | x :: xs => if x = c then 0 else if pyFind c xs = -1 then -1 else pyFind c xs + 1

/-- One step of Python `int(s)` grammar: after the leading digit, the body is
digits, where an underscore must sit between two digits (CPython 3.6+). -/
def digitRunOk : List Char → Bool
  | [] => true
  | c :: rest =>
    if c = '_' then
      match rest with
      | [] => false
      | c2 :: rest2 => c2.isDigit && digitRunOk rest2
    else c.isDigit && digitRunOk rest

/-- The digit part of a Python `int` literal: nonempty, starts with a digit,
underscores only between digits.  (ASCII digits only; exotic Unicode digits,
which CPython would also accept, are not modelled.) -/
def intDigitsOk : List Char → Bool
  | [] => false
  | c :: rest => c.isDigit && digitRunOk rest

/-- Decimal value of a digit string (underscores skipped, as CPython does). -/
def digitsVal (s : List Char) : Nat :=
  (s.filter (fun c => c ≠ '_')).foldl (fun a c => 10 * a + (c.toNat - 48)) 0

/-- Whitespace stripped by Python `int(str)` before parsing. -/
def isPySpace (c : Char) : Bool :=
  c = ' ' || c = '\t' || c = '\n' || c = '\r' || c = '\x0b' || c = '\x0c'

/-- Python `int(s)`: strip whitespace, optional single sign, digit body;
`none` models the `ValueError`. -/
def pyInt (s : List Char) : Option Int :=
  let t := ((s.dropWhile isPySpace).reverse.dropWhile isPySpace).reverse
  match t with
  | [] => none
  | c :: ds =>
    if c = '+' then (if intDigitsOk ds then some (digitsVal ds) else none)
    else if c = '-' then (if intDigitsOk ds then some (-(digitsVal ds : Int)) else none)
    else (if intDigitsOk (c :: ds) then some (digitsVal (c :: ds)) else none)

/-- Decimal digits of a natural number, as `"%i"` renders a nonnegative int. -/
def natToDigits (n : Nat) : List Char :=
  if h : n < 10 then [Char.ofNat (48 + n)]
  else natToDigits (n / 10) ++ [Char.ofNat (48 + n % 10)]
termination_by n
decreasing_by
  exact Nat.div_lt_self (by omega) (by omega)

/-! ## The traceback filename rewriter (`IepInterpreter.correctfilenameandlineno`)

```
j = fname.find('+')
if j>0:
    try:
        lineno += int(fname[j+1:])
        fname = fname[:j]
    except ValueError:
        pass
return fname, lineno
```
-/

def correctfilenameandlineno (fname : List Char) (lineno : Int) : List Char × Int :=
  let j := pyFind '+' fname
  if j > 0 then
    match pyInt (fname.drop (j.toNat + 1)) with
    | some k => (fname.take j.toNat, lineno + k)
    | none => (fname, lineno)
  else (fname, lineno)

/-- The origin tag `runlargecode` builds before compiling a block:
`if lineno: fname = "%s+%i" % (fname, lineno)`. -/
def runlargecodeTag (fname : List Char) (lineno : Nat) : List Char :=
  if lineno ≠ 0 then fname ++ '+' :: natToDigits lineno else fname

/-! ## The executed-source registry (`ExecutedSourceCollection`)

```
class ExecutedSourceCollection(dict):
    def _getId(self, codeObject):
        id_ = str(id(codeObject)) + '_' + codeObject.co_filename
    def storeSource(self, codeObject, source):
        self[self._getId(codeObject)] = source
    def getSource(self, codeObject):
        return self.get(self._getId(codeObject), '')
```
-/

/-- A Python code object, as far as the registry looks at it: its `id()` and
its `co_filename`. -/
structure CodeObject where
  objId : Nat
  co_filename : String
deriving DecidableEq, Repr

/-- The registry dict: association list, most recent binding first.  Keys are
`Option String` because `_getId` can (and does) yield Python `None`. -/
def SourceColl := List (Option String × String)

/-- Model of `dict.__setitem__`. -/
def dictSet (d : SourceColl) (k : Option String) (v : String) : SourceColl :=
  (k, v) :: d

/-- Model of `dict.get(k, default)`. -/
def dictGet (d : SourceColl) (k : Option String) (dflt : String) : String :=
  match d.find? (fun p => p.1 = k) with
  | some p => p.2
  | none => dflt

/-- Model of `ExecutedSourceCollection._getId`: the method body computes an id string
and binds it, but has no `return` statement, so the call evaluates to `None`
for every code object. -/
def getId (codeObject : CodeObject) : Option String :=
  let _id : String := toString codeObject.objId ++ "_" ++ codeObject.co_filename
  none

/-- Model of `ExecutedSourceCollection.storeSource`. -/
def storeSource (d : SourceColl) (codeObject : CodeObject) (source : String) :
    SourceColl :=
  dictSet d (getId codeObject) source

/-- Model of `ExecutedSourceCollection.getSource`. -/
def getSource (d : SourceColl) (codeObject : CodeObject) : String :=
  dictGet d (getId codeObject) ""

/-- Split a character list at every occurrence of `sep` (Python
`s.split(sep)` with no limit). -/
def splitOnChar (sep : Char) : List Char → List (List Char)
  | [] => [[]]
  | c :: cs =>
    if c = sep then [] :: splitOnChar sep cs
    else
      match splitOnChar sep cs with
      | [] => [[c]]
      | a :: rest => (c :: a) :: rest

/-- Python `str.splitlines()` for LF-normalized text: like `split('\n')` but
with no empty trailing part when the text ends in a newline. -/
def pySplitlines (s : List Char) : List (List Char) :=
  let parts := splitOnChar '\n' s
  if s.getLast? = some '\n' then parts.dropLast else parts

/-- Python sequence indexing `l[i]`, with negative indices counting from the
end; `none` models `IndexError`. -/
def pyGetItem {α : Type} (l : List α) (i : Int) : Option α :=
  if 0 ≤ i then l.get? i.toNat
  else if 0 ≤ i + l.length then l.get? (i + l.length).toNat
  else none

/-- The source-line substitution step of `showtraceback` for one traceback
entry (lines 909–919): look the frame's code object up in the registry; when a
source was found, replace the displayed example line with line `lineno - 1` of
that source, keeping the old example on `IndexError`. -/
def displayedExample (coll : SourceColl) (frameCode : CodeObject)
    (lineno : Nat) (exampleText : String) : String :=
  let source := getSource coll frameCode
  if source = "" then exampleText
  else
    match pyGetItem (pySplitlines source.data) ((lineno : Int) - 1) with
    | some line => String.mk line
    | none => exampleText

/-! ## Encoding-cookie mangling (`IepInterpreter.compilecode`)

```
parts = source.split('\n', 2)
ci = 'coding is'
contained_coding = False
for i in range(len(parts)-1):
    tmp = parts[i]
    if tmp and tmp[0] == '#' and 'coding' in tmp:
        contained_coding = True
        parts[i] = tmp.replace('coding=', ci).replace('coding:', ci)
if contained_coding:
    source = '\n'.join(parts)
```
-/

/-- Python `s.split(sep, 1)` step: split at the first occurrence of `sep`,
`none` when absent. -/
def splitFirst (sep : Char) : List Char → Option (List Char × List Char)
  | [] => none
  | c :: cs =>
    if c = sep then some ([], cs)
    else
      match splitFirst sep cs with
      | none => none
      | some (a, b) => some (c :: a, b)

/-- Python `source.split('\n', 2)`: one, two or three parts. -/
def pySplitMax2 (sep : Char) (s : List Char) : List (List Char) :=
  match splitFirst sep s with
  | none => [s]
  | some (a, r) =>
    match splitFirst sep r with
    | none => [a, r]
    | some (b, r2) => [a, b, r2]

/-- Python `s.replace(pat, rep)`: replace every non-overlapping occurrence,
left to right.  (`pat` is nonempty at both call sites.) -/
def pyReplace (pat rep : List Char) (s : List Char) : List Char :=
  match s with
  | [] => []
  | c :: cs =>
    if pat ≠ [] ∧ pat.isPrefixOf (c :: cs) then
      rep ++ pyReplace pat rep (cs.drop (pat.length - 1))
    else c :: pyReplace pat rep cs
termination_by s.length
decreasing_by
  all_goals simp only [List.length_cons, List.length_drop]
  all_goals omega

/-- Python `pat in s` (substring containment). -/
def pyContains (pat : List Char) : List Char → Bool
  | [] => pat.isEmpty
  | c :: cs => pat.isPrefixOf (c :: cs) || pyContains pat cs

/-- The guard `if tmp and tmp[0] == '#' and 'coding' in tmp`. -/
def cookieLineB (tmp : List Char) : Bool :=
  decide (tmp ≠ []) && decide (tmp.headI = '#') && pyContains ("coding".data) tmp

/-- The expression `tmp.replace('coding=', ci).replace('coding:', ci)` with
`ci = 'coding is'`. -/
def defangLine (tmp : List Char) : List Char :=
  pyReplace ("coding:".data) ("coding is".data)
    (pyReplace ("coding=".data) ("coding is".data) tmp)

/-- The cookie-mangling pass of `compilecode`: split into at most three
parts, rewrite qualifying parts other than the last, rejoin when anything
qualified (rejoining with `'\n'` reproduces the unprocessed parts verbatim). -/
def compilecodeMangle (source : List Char) : List Char :=
  match pySplitMax2 '\n' source with
  | [p0, p1] =>
    if cookieLineB p0 then defangLine p0 ++ '\n' :: p1 else source
  | [p0, p1, p2] =>
    if cookieLineB p0 || cookieLineB p1 then
      (if cookieLineB p0 then defangLine p0 else p0) ++ '\n' ::
        ((if cookieLineB p1 then defangLine p1 else p1) ++ '\n' :: p2)
    else source
  | _ => source

/-- The first physical line of a text. -/
def firstLine (s : List Char) : List Char := s.takeWhile (fun c => c ≠ '\n')

/-! ## The line buffer (`pushline` / `_runlines` / `process_commands`) -/

/-- The three outcomes `codeop.CommandCompiler` distinguishes: a code object,
`None` (incomplete), or a raised `SyntaxError`/`OverflowError`/`ValueError`. -/
inductive CompileResult
  | complete
  | incomplete
  | invalid
deriving DecidableEq, Repr

/-- The boolean `_runlines` returns: `True` exactly when the compile returned
`None` (case 2, more input required); complete and invalid sources are
dispatched (executed resp. reported) and yield `False`. -/
def runlinesMore (r : CompileResult) : Bool :=
  match r with
  | .incomplete => true
  | _ => false

/-- Model of `pushline`: append the line to the buffer, join with `'\n'`, reset the
buffer, run the joined source, and restore the buffer only when more input is
required.  Returns `(more, new buffer)`.  The compiler is abstracted as a
function from the joined source to a `CompileResult`. -/
def pushline (compileFn : String → CompileResult) (buffer : List String)
    (line : String) : Bool × List String :=
  let buffer1 := buffer ++ [line]
  let source := String.intercalate "\n" buffer1
  let more := runlinesMore (compileFn source)
  (more, if more then buffer1 else [])

/-- REPL-loop state touched by the `KeyboardInterrupt` handler of
`process_commands`. -/
structure ReplState where
  buffer : List String
  more : Bool
deriving DecidableEq, Repr

/-- The `except KeyboardInterrupt` branch of `process_commands`: write the
message, `self._resetbuffer()`, `self.more = 0`. -/
def onKeyboardInterrupt (st : ReplState) : ReplState :=
  { st with buffer := [], more := false }

/-! ## Exception dispatch of `execcode` -/

/-- The exception classes `execcode`'s handler chain distinguishes.
`bdb.BdbQuit` and ordinary user exceptions derive from `Exception`;
`KeyboardInterrupt` and `SystemExit` derive only from `BaseException`. -/
inductive PyExc
  | bdbQuit
  | keyboardInterrupt
  | systemExit
  | otherException
deriving DecidableEq, Repr

/-- Python's `isinstance(e, Exception)` on the modelled classes. -/
def isSubclassOfException (e : PyExc) : Bool :=
  match e with
  | .bdbQuit => true
  | .otherException => true
  | .keyboardInterrupt => false
  | .systemExit => false

/-- What `execcode` does with an exception raised by the executed unit. -/
inductive ExecOutcome
  | stopHandlerNoTraceback
  | sleepThenShowTraceback
  | propagated (e : PyExc)
deriving DecidableEq, Repr

/-- The handler chain of `execcode`:
`except bdb.BdbQuit` / `except Exception` / `except KeyboardInterrupt`,
in that order; anything unmatched propagates to the caller. -/
def execcodeDispatch (e : PyExc) : ExecOutcome :=
  if e = .bdbQuit then .stopHandlerNoTraceback
  else if isSubclassOfException e then .sleepThenShowTraceback
  else if e = .keyboardInterrupt then .sleepThenShowTraceback
  else .propagated e

/-! ## The `sys.last_*` triple (`showtraceback` / `showsyntaxerror`)

Exception objects are abstracted as numeric tokens; only which slots change
matters to the claims.
-/

/-- The process-global triple `sys.last_type`, `sys.last_value`,
`sys.last_traceback`. -/
structure SysLast where
  lastType : Option Nat
  lastValue : Option Nat
  lastTraceback : Option Nat
deriving DecidableEq, Repr

/-- The caching step of `showtraceback` on the fresh-exception path (lines
884–888): the triple is stored only when `self._dbFrames` is empty. -/
def showtracebackStore (dbFramesNonempty : Bool) (ty v tb : Nat)
    (st : SysLast) : SysLast :=
  if dbFramesNonempty then st
  else { lastType := some ty, lastValue := some v, lastTraceback := some tb }

/-- The mutation `showsyntaxerror` performs (lines 820–832): when a filename
was passed, the exception is a `SyntaxError`, and the legacy tuple-unpack of
the exception succeeds (it does on Python 2; on Python 3 it raises and the
bare `except` skips the whole block), `sys.last_value` is set to the rebuilt
`SyntaxError` — with no check of `self._dbFrames` anywhere in the method. -/
def showsyntaxerrorStore (filenameGiven isSE unpackOk : Bool)
    (newValue : Nat) (st : SysLast) : SysLast :=
  if filenameGiven && isSE && unpackOk then { st with lastValue := some newValue }
  else st

/-! ## The REPL tick handler (`process_commands`) and `run` -/

/-- How one `_process_commands` tick ended, as seen by the `try` in
`process_commands`. -/
inductive TickOutcome
  | noException
  | keyboardInterrupt
  | typeError
  | systemExitRaised (v : Nat)
  | otherError (n : Nat)
deriving DecidableEq, Repr

/-- What `process_commands`' handler chain does with the tick's outcome. -/
inductive HandlerResult
  | finishedNormally
  | interruptReported (msg : String)
  | swallowedSilently
  | exitCaptured (v : Nat)
  | propagated (n : Nat)
deriving DecidableEq, Repr

/-- The `try/except` of `process_commands`: `KeyboardInterrupt` is reported
and clears the buffer; `TypeError` is reported like an interrupt when the
integrated GUI is wx and otherwise caught with an empty handler body;
`SystemExit` is captured as the exit intent; anything else propagates. -/
def processCommandsHandler (guiName : String) (out : TickOutcome) :
    HandlerResult :=
  match out with
  | .noException => .finishedNormally
  | .keyboardInterrupt => .interruptReported "\nKeyboardInterrupt\n"
  | .typeError =>
    if guiName = "WX" then .interruptReported "\nKeyboard Interrupt\n"
    else .swallowedSilently
  | .systemExitRaised v => .exitCaptured v
  | .otherError n => .propagated n

/-- Exceptions at the level of `run`'s final `raise`. -/
inductive KernelExc
  | systemExitV (n : Nat)
  | systemExitFresh
  | otherExc (n : Nat)
deriving DecidableEq, Repr

/-- How `self.guiApp.run(...)` ended inside `run`'s `try`. -/
inductive GuiRunOutcome
  | returned
  | raisedSystemExitV (n : Nat)
  | raisedOtherExc (n : Nat)
deriving DecidableEq, Repr

/-- The tail of `run` (lines 217–228): only `SystemExit` from the event loop
is caught (becoming the exit intent when none is stored); after the `try`,
the stored intent — or a fresh `SystemExit` — is raised.  A non-`SystemExit`
exception from the event loop propagates out of `run` before that final
`raise` is reached.  The result is the exception `run` terminates with. -/
def runExit (intent : Option KernelExc) (out : GuiRunOutcome) : KernelExc :=
  match out with
  | .raisedOtherExc n => .otherExc n
  | .raisedSystemExitV n =>
    match intent with
    | some e => e
    | none => .systemExitV n
  | .returned =>
    match intent with
    | some e => e
    | none => .systemExitFresh

/-! ## The execution counter in `runlargecode` -/

/-- What `runlargecode` does after the banner: the observable action taken
for the block. -/
inductive BlockAction
  | executedAndStored
  | syntaxErrorShown
  | incompleteMessage
deriving DecidableEq, Repr

/-- Model of `runlargecode` after the echo banner: `if self._ipython:
self._ipython.execution_count += 1` happens *before* the source is compiled,
then the compile result selects the action.  Returns the new counter value
and the action. -/
def runlargecodeStep (ipythonActive : Bool) (count : Nat)
    (r : CompileResult) : Nat × BlockAction :=
  let count1 := if ipythonActive then count + 1 else count
  match r with
  | .complete => (count1, .executedAndStored)
  | .invalid => (count1, .syntaxErrorShown)
  | .incomplete => (count1, .incompleteMessage)

/-! # Supporting lemmas -/

theorem charDigitFacts (m : Nat) (hm : m < 10) :
    (Char.ofNat (48 + m)).toNat = 48 + m ∧ (Char.ofNat (48 + m)).isDigit = true ∧
      Char.ofNat (48 + m) ≠ '+' ∧ Char.ofNat (48 + m) ≠ '_' := by
  interval_cases m <;> exact (by decide)

theorem pyFind_of_not_mem (c : Char) (s : List Char) (h : c ∉ s) : pyFind c s = -1 := by
  induction s with
  | nil => rfl
  | cons a as ih =>
    have ha : ¬ a = c := fun e => h (e ▸ List.mem_cons_self a as)
    simp only [pyFind]
    rw [if_neg ha, ih (fun hm => h (List.mem_cons_of_mem a hm))]
    simp

theorem pyFind_append_cons (c : Char) (xs ys : List Char) (h : c ∉ xs) :
    pyFind c (xs ++ c :: ys) = xs.length := by
  induction xs with
  | nil => simp [pyFind]
  | cons a as ih =>
    have ha : ¬ a = c := fun e => h (e ▸ List.mem_cons_self a as)
    have ih' := ih (fun hm => h (List.mem_cons_of_mem a hm))
    simp only [List.cons_append, pyFind, if_neg ha, List.append_eq]
    rw [ih']
    rw [if_neg (by omega : ¬ (as.length : Int) = -1)]
    simp [List.length_cons]

theorem digitRunOk_of_digits (s : List Char) (h : ∀ c ∈ s, c.isDigit = true) :
    digitRunOk s = true := by
  induction s with
  | nil => rfl
  | cons a as ih =>
    have ha := h a (List.mem_cons_self a as)
    have ha' : ¬ a = '_' := by rintro rfl; exact absurd ha (by decide)
    have hrest : digitRunOk as = true := ih fun c hc => h c (List.mem_cons_of_mem a hc)
    unfold digitRunOk
    rw [if_neg ha', ha, Bool.true_and]
    exact hrest

theorem intDigitsOk_of_digits (s : List Char) (hne : s ≠ [])
    (h : ∀ c ∈ s, c.isDigit = true) : intDigitsOk s = true := by
  cases s with
  | nil => exact absurd rfl hne
  | cons a as =>
    simp only [intDigitsOk, h a (List.mem_cons_self a as), Bool.true_and]
    exact digitRunOk_of_digits as fun c hc => h c (List.mem_cons_of_mem a hc)

theorem isPySpace_eq_false_of_isDigit (c : Char) (h : c.isDigit = true) :
    isPySpace c = false := by
  by_contra hc
  rw [Bool.not_eq_false] at hc
  unfold isPySpace at hc
  simp only [Bool.or_eq_true, decide_eq_true_eq] at hc
  rcases hc with ((((hc | hc) | hc) | hc) | hc) | hc <;> subst hc <;>
    exact absurd h (by decide)

theorem dropWhile_isPySpace_of_digits (s : List Char)
    (h : ∀ c ∈ s, c.isDigit = true) : s.dropWhile isPySpace = s := by
  cases s with
  | nil => rfl
  | cons a as =>
    rw [List.dropWhile_cons,
      isPySpace_eq_false_of_isDigit a (h a (List.mem_cons_self a as))]
    simp

theorem digitsVal_append (xs : List Char) (c : Char) (hc : c ≠ '_') :
    digitsVal (xs ++ [c]) = 10 * digitsVal xs + (c.toNat - 48) := by
  unfold digitsVal
  rw [List.filter_append, List.foldl_append]
  simp [hc]

theorem natToDigits_ne_nil (n : Nat) : natToDigits n ≠ [] := by
  rw [natToDigits]
  split <;> simp

theorem natToDigits_digits (n : Nat) :
    ∀ c ∈ natToDigits n, c.isDigit = true ∧ c ≠ '+' ∧ c ≠ '_' := by
  induction n using Nat.strong_induction_on with
  | _ n ih =>
    rw [natToDigits]
    split
    · next h =>
      intro c hc
      simp only [List.mem_singleton] at hc
      subst hc
      exact ⟨(charDigitFacts n h).2.1, (charDigitFacts n h).2.2.1,
        (charDigitFacts n h).2.2.2⟩
    · next h =>
      intro c hc
      rw [List.mem_append] at hc
      rcases hc with hc | hc
      · exact ih (n / 10) (Nat.div_lt_self (by omega) (by omega)) c hc
      · simp only [List.mem_singleton] at hc
        subst hc
        have h10 : n % 10 < 10 := Nat.mod_lt _ (by omega)
        exact ⟨(charDigitFacts _ h10).2.1, (charDigitFacts _ h10).2.2.1,
          (charDigitFacts _ h10).2.2.2⟩

theorem digitsVal_natToDigits (n : Nat) : digitsVal (natToDigits n) = n := by
  induction n using Nat.strong_induction_on with
  | _ n ih =>
    rw [natToDigits]
    split
    · next h =>
      have he : ([] : List Char) ++ [Char.ofNat (48 + n)] = [Char.ofNat (48 + n)] := by
        simp
      rw [← he, digitsVal_append _ _ (charDigitFacts n h).2.2.2, (charDigitFacts n h).1]
      simp [digitsVal]
    · next h =>
      have h10 : n % 10 < 10 := Nat.mod_lt _ (by omega)
      rw [digitsVal_append _ _ (charDigitFacts _ h10).2.2.2,
        ih (n / 10) (Nat.div_lt_self (by omega) (by omega)), (charDigitFacts _ h10).1]
      omega

theorem pyInt_digits (s : List Char) (hne : s ≠ [])
    (h : ∀ c ∈ s, c.isDigit = true) : pyInt s = some ((digitsVal s : Int)) := by
  have hdw : s.dropWhile isPySpace = s := dropWhile_isPySpace_of_digits s h
  have hrev : ∀ c ∈ s.reverse, c.isDigit = true := fun c hc =>
    h c (List.mem_reverse.mp hc)
  have hdw2 : s.reverse.dropWhile isPySpace = s.reverse :=
    dropWhile_isPySpace_of_digits _ hrev
  simp only [pyInt, hdw, hdw2, List.reverse_reverse]
  cases s with
  | nil => exact absurd rfl hne
  | cons a as =>
    have ha := h a (List.mem_cons_self a as)
    have hap : ¬ a = '+' := by rintro rfl; exact absurd ha (by decide)
    have ham : ¬ a = '-' := by rintro rfl; exact absurd ha (by decide)
    simp only [if_neg hap, if_neg ham, intDigitsOk_of_digits _ (by simp) h, if_pos]

theorem pyInt_natToDigits (n : Nat) : pyInt (natToDigits n) = some (n : Int) := by
  rw [pyInt_digits _ (natToDigits_ne_nil n)
    (fun c hc => (natToDigits_digits n c hc).1), digitsVal_natToDigits]

theorem splitFirst_of_not_mem (sep : Char) (s : List Char) (h : sep ∉ s) :
    splitFirst sep s = none := by
  induction s with
  | nil => rfl
  | cons a as ih =>
    have ha : ¬ a = sep := fun e => h (e ▸ List.mem_cons_self a as)
    simp only [splitFirst, if_neg ha, ih (fun hm => h (List.mem_cons_of_mem a hm))]

theorem splitFirst_append_cons (sep : Char) (xs ys : List Char) (h : sep ∉ xs) :
    splitFirst sep (xs ++ sep :: ys) = some (xs, ys) := by
  induction xs with
  | nil => simp [splitFirst]
  | cons a as ih =>
    have ha : ¬ a = sep := fun e => h (e ▸ List.mem_cons_self a as)
    have ih' := ih (fun hm => h (List.mem_cons_of_mem a hm))
    simp only [List.cons_append, splitFirst, if_neg ha, List.append_eq, ih']

/-! # Claim C1 -/

/-- Claim C1, counterexample: the claim says the tag is split on the LAST
`'+'`, so that for a filename that itself contains a `'+'` the round trip
still recovers `(filename, l + offset)`.  `correctfilenameandlineno` splits
at the FIRST `'+'` (`fname.find('+')`): on the tag `runlargecode` builds for
filename `"a+b.py"` and offset 3, `int("b.py+3")` raises `ValueError` and
the tag is returned unchanged, not `("a+b.py", 13)`. -/
theorem correctfilename_last_plus_cex :
    runlargecodeTag ("a+b.py".data) 3 = "a+b.py+3".data ∧
    correctfilenameandlineno ("a+b.py+3".data) 10 = ("a+b.py+3".data, 10) ∧
    correctfilenameandlineno ("a+b.py+3".data) 10 ≠ ("a+b.py".data, (10 : Int) + 3) := by
  refine ⟨?_, by decide, by decide⟩
  have h3 : natToDigits 3 = ['3'] := by simp [natToDigits]
  simp [runlargecodeTag, h3]

/-- Claim C1, amended: `correctfilenameandlineno` splits the tag at the
FIRST `'+'`.  For every nonempty filename that does not contain a `'+'`,
every offset `k` and every frame line number `l`, applying it to the tag
built by `runlargecode` (`"%s+%i" % (fname, lineno)` when `lineno` is
nonzero, `fname` otherwise) returns exactly the original filename and
`l + k`. -/
theorem correctfilename_first_plus_roundtrip (fname : List Char) (k : Nat)
    (l : Int) (h1 : fname ≠ []) (h2 : '+' ∉ fname) :
    correctfilenameandlineno (runlargecodeTag fname k) l = (fname, l + k) := by
  by_cases hk : k = 0
  · subst hk
    simp only [runlargecodeTag, ne_eq, not_true_eq_false, if_false, reduceIte]
    simp only [correctfilenameandlineno, pyFind_of_not_mem '+' fname h2]
    norm_num
  · simp only [runlargecodeTag, if_pos hk, ne_eq, hk, not_false_eq_true, if_true, reduceIte]
    have hfind := pyFind_append_cons '+' fname (natToDigits k) h2
    have hpos : (0 : Int) < (fname.length : Int) := by
      have := List.length_pos.mpr h1
      exact_mod_cast this
    have hdrop : (fname ++ '+' :: natToDigits k).drop (fname.length + 1) =
        natToDigits k := by
      have he : fname ++ '+' :: natToDigits k = (fname ++ ['+']) ++ natToDigits k := by
        simp
      rw [he]
      have hlen : (fname ++ ['+']).length = fname.length + 1 := by simp
      rw [← hlen, List.drop_left]
    have htake : (fname ++ '+' :: natToDigits k).take fname.length = fname :=
      List.take_left fname _
    simp only [correctfilenameandlineno, hfind, if_pos hpos, Int.toNat_ofNat,
      hdrop, pyInt_natToDigits, htake]

/-- Claim C1, witness: the docstring's own example, `"foo.py"` at offset 7,
line 22, recovers `("foo.py", 29)`. -/
theorem correctfilename_first_plus_roundtrip_witness :
    correctfilenameandlineno (runlargecodeTag ("foo.py".data) 7) 22 =
      ("foo.py".data, 29) := by
  have h := correctfilename_first_plus_roundtrip ("foo.py".data) 7 22
    (by decide) (by decide)
  simpa using h

/-! # Claims C2 and C3: the executed-source registry -/

/-- Claim C2: the claim states that a frame of a stored unit always displays
the line of the source stored *for that unit at submission time*,
unaffected by later submissions.  Because `_getId` returns `None` for every
code object, a later `storeSource` overwrites the single dict entry: after
storing unit 1 (`"a=1\nb=1/0\n"`) and then unit 2 (`"x=9\ny=8\n"`), the
frame of unit 1 at line 2 displays `"y=8"`, a line of unit 2's source, not
the stored-at-submission line `"b=1/0"`.  The class docstring ("the
codeObject produced by compiling the source is used as a reference", "the
line of code shown shall always be correct") shows the claim is the intent
and the missing `return` in `_getId` a slip, so this is a code bug. -/
theorem showtraceback_stale_source_bug :
    displayedExample
        (storeSource (storeSource [] ⟨1, "f1"⟩ "a=1\nb=1/0\n") ⟨2, "f2"⟩ "x=9\ny=8\n")
        ⟨1, "f1"⟩ 2 "b=1/0" = "y=8" ∧
      ("y=8" : String) ≠ "b=1/0" := by
  exact ⟨rfl, by decide⟩

/-- Claim C3: `_getId` returns `None` for every code object, every
`storeSource` writes under that one key, `getSource` returns the most
recently stored source for every code object (stored or not), and `""` when
nothing has been stored. -/
theorem getSource_single_key_behavior :
    (∀ c : CodeObject, getId c = none) ∧
    (∀ (d : SourceColl) (c c' : CodeObject) (s : String),
      getSource (storeSource d c s) c' = s) ∧
    (∀ c : CodeObject, getSource ([] : SourceColl) c = "") := by
  exact ⟨fun c => rfl, fun d c c' s => rfl, fun c => rfl⟩

/-! # Claim C4: encoding-cookie mangling -/

/-- Claim C4, counterexample: the claim says any `coding:`/`coding=` cookie
in the first two physical lines is rewritten to `coding is` before
compilation, regardless of whether the source consists of a single line
without a trailing newline.  `compilecode` splits with `source.split('\n',2)`
and processes only `range(len(parts)-1)`, so a one-line source with no
newline is passed to the compiler with its cookie intact. -/
theorem cookie_single_line_not_rewritten_cex :
    compilecodeMangle ("# -*- coding: utf-8 -*-".data) =
        "# -*- coding: utf-8 -*-".data ∧
      pyContains ("coding:".data) (compilecodeMangle ("# -*- coding: utf-8 -*-".data)) = true := by
  exact ⟨by decide, by decide⟩

/-- Claim C4, amended: a cookie line among the first two physical lines is
defanged exactly when that line is terminated by a newline in the source
(as is always the case for the first two lines of block and script sources,
which get a trailing newline appended): for any newline-free `l1`, `l2`,
the first line of `l1 ++ '\n' ++ rest` is rewritten by `defangLine` when it
qualifies, and both lines of `l1 ++ '\n' ++ l2 ++ '\n' ++ tail` are. -/
theorem compilecodeMangle_first_two_lines (l1 l2 tail rest : List Char)
    (h1 : '\n' ∉ l1) (h2 : '\n' ∉ l2) (hrest : '\n' ∉ rest) :
    compilecodeMangle (l1 ++ '\n' :: rest) =
        (if cookieLineB l1 then defangLine l1 else l1) ++ '\n' :: rest ∧
      compilecodeMangle (l1 ++ '\n' :: (l2 ++ '\n' :: tail)) =
        (if cookieLineB l1 then defangLine l1 else l1) ++ '\n' ::
          ((if cookieLineB l2 then defangLine l2 else l2) ++ '\n' :: tail) := by
  have s1 := splitFirst_append_cons '\n' l1 rest h1
  have s1' := splitFirst_append_cons '\n' l1 (l2 ++ '\n' :: tail) h1
  have s2 := splitFirst_of_not_mem '\n' rest hrest
  have s2' := splitFirst_append_cons '\n' l2 tail h2
  constructor
  · simp only [compilecodeMangle, pySplitMax2, s1, s2]
    by_cases hc : cookieLineB l1 <;> simp [hc]
  · simp only [compilecodeMangle, pySplitMax2, s1', s2']
    by_cases hc1 : cookieLineB l1 <;> by_cases hc2 : cookieLineB l2 <;>
      simp [hc1, hc2]

/-- Claim C4, witness: a newline-terminated utf-8 cookie line followed by
`x=1` qualifies and the theorem applies to it. -/
theorem compilecodeMangle_first_two_lines_witness :
    compilecodeMangle ("# -*- coding: utf-8 -*-".data ++ '\n' :: "x=1".data) =
      (if cookieLineB ("# -*- coding: utf-8 -*-".data)
        then defangLine ("# -*- coding: utf-8 -*-".data)
        else "# -*- coding: utf-8 -*-".data) ++ '\n' :: "x=1".data := by
  exact (compilecodeMangle_first_two_lines ("# -*- coding: utf-8 -*-".data)
    [] [] ("x=1".data) (by decide) (by decide) (by decide)).1

/-! # Claim C5: buffer discipline -/

/-- Claim C5: after every `pushline`, the buffer is empty iff the compile of
the joined buffer was complete or invalid (iff `pushline` returned false);
when the compile was incomplete the buffer is the previous buffer with the
line appended; and the `KeyboardInterrupt` handler of `process_commands`
empties the buffer. -/
theorem pushline_buffer_discipline :
    (∀ (compileFn : String → CompileResult) (buffer : List String) (line : String),
      ((pushline compileFn buffer line).2 = [] ↔
        (compileFn (String.intercalate "\n" (buffer ++ [line])) = .complete ∨
          compileFn (String.intercalate "\n" (buffer ++ [line])) = .invalid)) ∧
      ((pushline compileFn buffer line).2 = [] ↔
        (pushline compileFn buffer line).1 = false) ∧
      ((pushline compileFn buffer line).1 = true →
        (pushline compileFn buffer line).2 = buffer ++ [line])) ∧
    (∀ st : ReplState, (onKeyboardInterrupt st).buffer = []) := by
  constructor
  · intro compileFn buffer line
    cases h : compileFn (String.intercalate "\n" (buffer ++ [line])) <;>
      simp [pushline, runlinesMore, h]
  · intro st
    rfl

/-! # Claim C6: exception dispatch of `execcode` -/

/-- Claim C6: `execcode` sends `bdb.BdbQuit` to the stop handler with no
traceback, hands ordinary exceptions and `KeyboardInterrupt` to the
traceback formatter after a brief sleep, and lets exactly `SystemExit`
propagate uncaught. -/
theorem execcode_exception_dispatch :
    execcodeDispatch .bdbQuit = .stopHandlerNoTraceback ∧
    execcodeDispatch .otherException = .sleepThenShowTraceback ∧
    execcodeDispatch .keyboardInterrupt = .sleepThenShowTraceback ∧
    execcodeDispatch .systemExit = .propagated .systemExit ∧
    (∀ e : PyExc, (∃ e2, execcodeDispatch e = .propagated e2) ↔ e = .systemExit) := by
  refine ⟨rfl, rfl, rfl, rfl, fun e => ?_⟩
  cases e <;> simp [execcodeDispatch, isSubclassOfException]

/-! # Claim C7: `sys.last_*` and debug mode -/

/-- Claim C7, counterexample: the claim says that with the debug frame stack
non-empty, formatting a syntax error via `showsyntaxerror` leaves
`sys.last_type/value/traceback` unchanged.  `showsyntaxerror` never consults
`self._dbFrames`: whenever a filename is passed, the exception is a
`SyntaxError` and the legacy unpack succeeds (as it does on Python 2), it
sets `sys.last_value` — also while debugging. -/
theorem showsyntaxerror_debug_mode_cex :
    showsyntaxerrorStore true true true 7 ⟨none, none, none⟩ ≠
      (⟨none, none, none⟩ : SysLast) := by
  decide

/-- Claim C7, amended: `showtraceback` leaves the `sys.last_*` triple
unchanged whenever the debug frame stack is non-empty; `showsyntaxerror`
never touches `sys.last_type` or `sys.last_traceback`, and leaves
`sys.last_value` unchanged when the unpack fails (always, on Python 3), but
sets `sys.last_value` — independently of debug mode — when a filename is
given, the exception is a `SyntaxError`, and the unpack succeeds. -/
theorem lastexception_mutation_rules :
    (∀ (ty v tb : Nat) (st : SysLast), showtracebackStore true ty v tb st = st) ∧
    (∀ (fg se : Bool) (nv : Nat) (st : SysLast),
      showsyntaxerrorStore fg se false nv st = st) ∧
    (∀ (fg se uk : Bool) (nv : Nat) (st : SysLast),
      (showsyntaxerrorStore fg se uk nv st).lastType = st.lastType ∧
      (showsyntaxerrorStore fg se uk nv st).lastTraceback = st.lastTraceback) ∧
    (∀ (nv : Nat) (st : SysLast),
      showsyntaxerrorStore true true true nv st = { st with lastValue := some nv }) := by
  refine ⟨fun ty v tb st => rfl, fun fg se nv st => ?_, fun fg se uk nv st => ?_,
    fun nv st => rfl⟩
  · simp [showsyntaxerrorStore]
  · unfold showsyntaxerrorStore
    split <;> simp

/-! # Claim C8: the REPL-loop `TypeError` quirk -/

/-- Claim C8, counterexample: the claim says that for backends other than
wx, a `TypeError` escaping the inner tick is not swallowed by the REPL-loop
handler.  The `except TypeError:` clause catches it for every backend; with
a non-wx GUI (here tk) its body does nothing, so the error is silently
discarded rather than propagated. -/
theorem typeerror_swallowed_nonwx_cex :
    processCommandsHandler "TK" .typeError = .swallowedSilently := by
  decide

/-- Claim C8, amended: a `TypeError` escaping the tick is caught for every
backend: under wx it is treated as a `KeyboardInterrupt` (message written,
buffer cleared); under every other backend it is silently swallowed by the
empty handler body.  A real `KeyboardInterrupt` is always reported. -/
theorem processCommands_exception_handling :
    (∀ guiName : String,
      processCommandsHandler guiName .typeError =
        if guiName = "WX" then .interruptReported "\nKeyboard Interrupt\n"
        else .swallowedSilently) ∧
    (∀ guiName : String,
      processCommandsHandler guiName .keyboardInterrupt =
        .interruptReported "\nKeyboardInterrupt\n") ∧
    (∀ (guiName : String) (v : Nat),
      processCommandsHandler guiName (.systemExitRaised v) = .exitCaptured v) := by
  exact ⟨fun g => rfl, fun g => rfl, fun g v => rfl⟩

/-! # Claim C9: how `run` terminates -/

/-- Claim C9, counterexample: the claim says that when an exit intent was
stored by an inner loop, `run` raises it, with the event loop's own
exception raised only otherwise.  The `try` around `guiApp.run` catches only
`SystemExit`: a non-`SystemExit` exception from the event loop propagates
out of `run` directly, bypassing the stored intent. -/
theorem run_exit_intent_bypassed_cex :
    runExit (some (.systemExitV 7)) (.raisedOtherExc 3) = .otherExc 3 ∧
    runExit (some (.systemExitV 7)) (.raisedOtherExc 3) ≠ .systemExitV 7 := by
  exact ⟨rfl, by decide⟩

/-- Claim C9, amended: `run` always terminates by raising an exception;
when the event loop returns normally or raises `SystemExit`, a stored exit
intent takes precedence, a `SystemExit` from the event loop is captured as
the intent when none is stored, and a fresh `SystemExit` is raised when
there is nothing else; but a non-`SystemExit` exception from the event loop
propagates directly, bypassing the exit-intent check. -/
theorem run_exit_precedence :
    (∀ (intent : Option KernelExc) (n : Nat),
      runExit intent (.raisedOtherExc n) = .otherExc n) ∧
    (∀ e : KernelExc, runExit (some e) .returned = e) ∧
    (∀ (e : KernelExc) (n : Nat), runExit (some e) (.raisedSystemExitV n) = e) ∧
    runExit none .returned = .systemExitFresh ∧
    (∀ n : Nat, runExit none (.raisedSystemExitV n) = .systemExitV n) := by
  exact ⟨fun intent n => rfl, fun e => rfl, fun e n => rfl, rfl, fun n => rfl⟩

/-! # Claim C10: the execution counter in `runlargecode` -/

/-- Claim C10, counterexample: the claim says the counter does not advance
for syntactically invalid submissions.  `runlargecode` increments
`self._ipython.execution_count` before compiling, so an invalid block
advances it all the same. -/
theorem execution_counter_invalid_block_cex :
    (runlargecodeStep true 5 .invalid).1 = 6 ∧
    (runlargecodeStep true 5 .invalid).2 = .syntaxErrorShown := by
  exact ⟨rfl, rfl⟩

/-- Claim C10, amended: when IPython is active, `runlargecode` increments
the execution counter exactly once per block message, before compilation,
so the counter advances for complete, incomplete and invalid blocks alike;
when IPython is not active there is no counter and nothing advances.  The
compile result selects only the action taken afterwards. -/
theorem runlargecode_counter_behavior :
    (∀ (count : Nat) (r : CompileResult),
      (runlargecodeStep true count r).1 = count + 1) ∧
    (∀ (count : Nat) (r : CompileResult),
      (runlargecodeStep false count r).1 = count) ∧
    (∀ (ip : Bool) (count : Nat),
      (runlargecodeStep ip count .complete).2 = .executedAndStored ∧
      (runlargecodeStep ip count .invalid).2 = .syntaxErrorShown ∧
      (runlargecodeStep ip count .incomplete).2 = .incompleteMessage) := by
  refine ⟨fun count r => ?_, fun count r => ?_, fun ip count => ⟨rfl, rfl, rfl⟩⟩ <;>
    cases r <;> rfl

end Iep
